import Mathlib

/-!
Shallow embedding of the SmoothcompCalendar repository (src/cache.py,
src/server.py, src/scraper.py, src/calendar_gen.py) for checking the
natural-language specification.

Modelling conventions:
* Timestamps (`datetime`) are naive integers (seconds). `datetime.now()`
  appears as an explicit `now : Int` parameter at each point the code calls it.
* `timedelta(hours=h)` is `h * 3600` seconds.
* The PostgreSQL `events` table is a list of `Row`s keyed by `id`
  (`INSERT ... ON CONFLICT (id) DO UPDATE` replaces the matching row in place,
  otherwise appends).  The `cache_meta` `last_update` key is an `Option Int`.
* SQL `NULL` comparison semantics: `start_date < NOW()` is false when
  `start_date IS NULL`, so the past-event sweep never deletes rows with a
  NULL `start_date`.
-/

namespace Smoothcomp

/-- `scraper.Event` dataclass as consumed by the cache and the calendar
generator (optional strings are `Option String`, timestamps `Option Int`). -/
structure Event where
  id : String
  name : String
  url : String
  start_date : Option Int := none
  end_date : Option Int := none
  location : Option String := none
  city : Option String := none
  country : Option String := none
  sport : Option String := none
  organizer : Option String := none
  participants : Option Int := none
  registration_open : Bool := false
deriving Repr, DecidableEq

/-- A row of the PostgreSQL `events` table (src/cache.py `_init_schema`):
the Event columns plus the `updated_at` bookkeeping column. -/
structure Row where
  id : String
  name : String
  url : String
  start_date : Option Int
  end_date : Option Int
  location : Option String
  city : Option String
  country : Option String
  sport : Option String
  organizer : Option String
  participants : Option Int
  registration_open : Bool
  updated_at : Int
deriving Repr, DecidableEq

/-- The `events` table. -/
abbrev Store := List Row

/-- The row written by `EventCache.upsert_event`: every column taken from the
event, `updated_at` set to the cycle's `refresh_time` (src/cache.py:148-180). -/
def rowOfEvent (e : Event) (refresh_time : Int) : Row :=
  { id := e.id
    name := e.name
    url := e.url
    start_date := e.start_date
    end_date := e.end_date
    location := e.location
    city := e.city
    country := e.country
    sport := e.sport
    organizer := e.organizer
    participants := e.participants
    registration_open := e.registration_open
    updated_at := refresh_time }

/-- `INSERT ... ON CONFLICT (id) DO UPDATE`: replace the row with the same
primary key in place, or append a fresh row. -/
def upsertRow (store : Store) (row : Row) : Store :=
  if store.any (fun r => r.id = row.id) then
    store.map (fun r => if r.id = row.id then row else r)
  else
    store ++ [row]

/-- `EventCache.upsert_event(event, refresh_time)` (src/cache.py:133-180).
`now` is `datetime.now()` at the moment of the call: events whose
`start_date` is strictly before it are silently skipped. -/
def upsert_event (store : Store) (e : Event) (refresh_time : Int) (now : Int) :
    Store :=
  match e.start_date with
  | some s => if s < now then store else upsertRow store (rowOfEvent e refresh_time)
  | none => upsertRow store (rowOfEvent e refresh_time)

/-- Whether the past-event sweep `DELETE FROM events WHERE start_date < NOW()`
matches a row (`NULL < NOW()` is not true in SQL). -/
def pastSweepMatches (r : Row) (now : Int) : Bool :=
  match r.start_date with
  | some s => decide (s < now)
  | none => false

/-- `EventCache.cleanup_stale_events(refresh_time)` (src/cache.py:182-200):
first delete rows with `updated_at < refresh_time`, then rows whose
`start_date` is before `NOW()` (`now` = the clock when the second DELETE runs). -/
def cleanup_stale_events (store : Store) (refresh_time : Int) (now : Int) :
    Store :=
  (store.filter (fun r => ¬ r.updated_at < refresh_time)).filter
    (fun r => ¬ pastSweepMatches r now)

/-- `EventCache.is_stale` (src/cache.py:126-131) over the `cache_meta`
`last_update` marker; `ttl` in seconds. -/
def is_stale (last_update : Option Int) (now : Int) (ttl : Int) : Bool :=
  match last_update with
  | none => true
  | some t => decide (now - t > ttl)

/-- `timedelta(hours=ttl_hours)` from `EventCache.__init__` (default 1). -/
def ttlOfHours (ttl_hours : Int) : Int := ttl_hours * 3600

/-- `EventCache.mark_refresh_complete` (src/cache.py:202-209): store
`datetime.now()` under the `last_update` key. -/
def mark_refresh_complete (_last_update : Option Int) (now : Int) :
    Option Int := some now

/-- Persistent state touched by a refresh cycle: the `events` table and the
`last_update` marker. -/
structure CacheState where
  store : Store
  last_update : Option Int
deriving DecidableEq

/-- Upsert a scraped batch in order; each element carries the event together
with `datetime.now()` at the moment of its own upsert call. -/
def upsertAll (store : Store) (batch : List (Event × Int)) (refresh_time : Int) :
    Store :=
  batch.foldl (fun st p => upsert_event st p.1 refresh_time p.2) store

/-- `refresh_cache` (src/server.py:32-69) after the single-flight guard:
`batch` is the sequence the scrape loop would upsert; `failAfter = none`
means the loop finishes and the cycle runs `cleanup_stale_events` then
`mark_refresh_complete`; `failAfter = some k` means an exception is raised
after the first `k` upserts, and neither cleanup nor completion runs. -/
def refreshAttempt (st : CacheState) (batch : List (Event × Int))
    (failAfter : Option Nat) (refresh_time : Int) (cleanup_now : Int)
    (complete_now : Int) : CacheState :=
  match failAfter with
  | none =>
    { store := cleanup_stale_events (upsertAll st.store batch refresh_time)
        refresh_time cleanup_now
      last_update := mark_refresh_complete st.last_update complete_now }
  | some k =>
    { store := upsertAll st.store (batch.take k) refresh_time
      last_update := st.last_update }

/-! ### Scraper: event-id extraction and new-then-update ordering -/

/-- Leftmost match of the Python regex search `re.search(r'/event/(\d+)', url)`
over a character list: at each position, if the literal `/event/` matches and
at least one digit follows, capture the maximal digit run; otherwise continue
at the next position. -/
def findEventId : List Char → Option (List Char)
  | [] => none
  | c :: rest =>
    let here := c :: rest
    if "/event/".toList.isPrefixOf here then
      let ds := (here.drop 7).takeWhile Char.isDigit
      if ds.isEmpty then findEventId rest else some ds
    else
      findEventId rest

/-- Event id parsed from a URL (src/scraper.py:221-222): the regex capture,
or `none` when the pattern does not match. -/
def extract_event_id (url : String) : Option String :=
  (findEventId url.toList).map List.asString

/-- Whether `scrape_events_iter` classifies a URL as an update
(src/scraper.py:223): its parsed id exists and is in `existing_ids`. -/
def isUpdateUrl (existing_ids : List String) (url : String) : Bool :=
  match extract_event_id url with
  | some eid => existing_ids.contains eid
  | none => false

/-- The partition loop of `scrape_events_iter` (src/scraper.py:218-226):
split `urls` into `(new_urls, update_urls)` preserving relative order. -/
def partitionUrls (existing_ids : List String) : List String →
    List String × List String
  | [] => ([], [])
  | u :: rest =>
    let p := partitionUrls existing_ids rest
    if isUpdateUrl existing_ids u then (p.1, u :: p.2) else (u :: p.1, p.2)

/-- The order in which `scrape_events_iter` processes URLs
(src/scraper.py:217-231): when `existing_ids` is non-empty (Python truthiness
of the set), new URLs first then updates; otherwise the listing order as-is. -/
def orderedUrls (existing_ids : List String) (urls : List String) :
    List String :=
  if existing_ids.isEmpty then urls
  else
    let p := partitionUrls existing_ids urls
    p.1 ++ p.2

/-! ### Scraper: `get_event_details` with Python error semantics

JSON values are an inductive type; Python's `dict.get` raises
`AttributeError` on a non-dict receiver, which `_parse_jsonld`'s
`except (json.JSONDecodeError, TypeError)` does not catch, so it escapes
`get_event_details`.  Errors are `Except.error ()` (= an uncaught Python
exception). `datetime.fromisoformat` is a stdlib function outside the
repository and is abstracted as a `parseIso : String → Option Int` parameter
(`none` = `ValueError`, which the code catches). -/

inductive Json where
  | null
  | str (s : String)
  | num (n : Int)
  | arr (xs : List Json)
  | obj (kvs : List (String × Json))
deriving Repr

/-- Python `j == s` for a string literal `s`: true exactly when the decoded
value is that string (numbers, lists, dicts, None compare unequal). -/
def Json.eqStr (j : Json) (s : String) : Bool :=
  match j with
  | .str t => t == s
  | _ => false

/-- Python truthiness of a JSON-decoded value. -/
def Json.truthy : Json → Bool
  | .null => false
  | .str s => ¬ s.isEmpty
  | .num n => n ≠ 0
  | .arr xs => ¬ xs.isEmpty
  | .obj kvs => ¬ kvs.isEmpty

/-- Python `x.get(key, default)`: key lookup on a dict, `AttributeError`
(uncaught here) on anything else. -/
def jget (j : Json) (key : String) (dflt : Json) : Except Unit Json :=
  match j with
  | .obj kvs =>
    match kvs.lookup key with
    | some v => .ok v
    | none => .ok dflt
  | _ => .error ()

/-- The Event as built by the scraper: fields that come straight out of
`dict.get` keep their dynamic (JSON) value, exactly as Python stores them. -/
structure PyEvent where
  id : String
  name : Json
  url : String
  start_date : Option Int := none
  end_date : Option Int := none
  location : Json := .null
  city : Json := .null
  country : Json := .null
  sport : Json := .null
  organizer : Json := .null
  participants : Option Int := none
  registration_open : Bool := false
deriving Repr

/-- The date handling of `_event_from_jsonld` (src/scraper.py:150-160):
`if data.get('startDate'):` then `data['startDate'].replace('Z', '+00:00')`
and `fromisoformat` with `ValueError` caught.  `.replace` on a truthy
non-string raises `AttributeError`. -/
def jsonldDate (parseIso : String → Option Int) (v : Json) :
    Except Unit (Option Int) :=
  if v.truthy then
    match v with
    | .str s => .ok (parseIso (s.replace "Z" "+00:00"))
    | _ => .error ()
  else
    .ok none

/-- `SmoothcompScraper._event_from_jsonld` (src/scraper.py:142-179). -/
def event_from_jsonld (parseIso : String → Option Int) (data : Json)
    (url : String) (event_id : String) : Except Unit PyEvent := do
  let location_data ← jget data "location" (.obj [])
  let address_data ← jget location_data "address" (.obj [])
  let sdj ← jget data "startDate" .null
  let start_date ← jsonldDate parseIso sdj
  let edj ← jget data "endDate" .null
  let end_date ← jsonldDate parseIso edj
  let country0 ← jget address_data "addressCountry" (.str "")
  let country ←
    match country0 with
    | .obj _ => jget country0 "name" (.str "")
    | _ => pure country0
  let name ← jget data "name" (.str "Unknown Event")
  let location ← jget location_data "name" (.str "")
  let city ← jget address_data "addressLocality" (.str "")
  let sport ← jget data "sport" (.str "Grappling")
  let organizer0 ← jget data "organizer" (.obj [])
  let organizer ← jget organizer0 "name" (.str "")
  return { id := event_id
           name := name
           url := url
           start_date := start_date
           end_date := end_date
           location := location
           city := city
           country := country
           sport := sport
           organizer := organizer
           participants := none
           registration_open := true }

/-- `SmoothcompScraper._parse_jsonld` (src/scraper.py:131-140): scripts whose
string fails `json.loads` (a caught `JSONDecodeError`/`TypeError`) are
`none` and are skipped; on a decoded value, `data.get('@type')` raises
`AttributeError` (uncaught) unless the value is a dict. -/
def parse_jsonld (parseIso : String → Option Int)
    (url : String) (event_id : String) :
    List (Option Json) → Except Unit (Option PyEvent)
  | [] => .ok none
  | none :: rest => parse_jsonld parseIso url event_id rest
  | some data :: rest =>
    match data with
    | .obj kvs =>
      if ((kvs.lookup "@type").getD .null).eqStr "SportsEvent" then do
        let e ← event_from_jsonld parseIso data url event_id
        return some e
      else
        parse_jsonld parseIso url event_id rest
    | _ => .error ()

/-- Leftmost match test for `re.sub(r'\s*\|\s*Smoothcomp.*$', '', name)`
(src/scraper.py:187): from some position, optional whitespace, a `|` bar,
optional whitespace, then the literal `Smoothcomp` (the trailing `.*$`
consumes the rest).  Returns the characters before the match. -/
def stripSmoothcompSuffix : List Char → List Char
  | [] => []
  | c :: rest =>
    let here := c :: rest
    let afterWs := here.dropWhile (fun ch => ch.isWhitespace)
    let matchesHere :=
      match afterWs with
      | '|' :: tl =>
        "Smoothcomp".toList.isPrefixOf (tl.dropWhile (fun ch => ch.isWhitespace))
      | _ => false
    if matchesHere then [] else c :: stripSmoothcompSuffix rest

/-- `SmoothcompScraper._parse_html` (src/scraper.py:181-193): the fallback
record built from the page title (stripped, `| Smoothcomp…` suffix removed);
it always returns an Event. -/
def parse_html (title : Option String) (url : String) (event_id : String) :
    PyEvent :=
  let base :=
    match title with
    | some t => (stripSmoothcompSuffix t.trim.toList).asString
    | none => "Unknown Event"
  { id := event_id, name := .str base, url := url }

/-- What one detail-page fetch can yield: a network error/timeout (the
caught exception path), or a response with a status code, the decoded
JSON-LD script tags, and the page title. -/
inductive FetchResult where
  | netError
  | page (status : Nat) (scripts : List (Option Json)) (title : Option String)
deriving Repr

/-- `SmoothcompScraper.get_event_details` (src/scraper.py:98-129):
`none` on network failure or non-200; otherwise JSON-LD first with HTML
fallback.  `Except.error ()` is an exception escaping the function. -/
def get_event_details (parseIso : String → Option Int) (fetch : FetchResult)
    (url : String) : Except Unit (Option PyEvent) :=
  match fetch with
  | .netError => .ok none
  | .page status scripts title =>
    if status ≠ 200 then .ok none
    else
      let event_id := (extract_event_id url).getD url
      match parse_jsonld parseIso url event_id scripts with
      | .error () => .error ()
      | .ok (some e) => .ok (some e)
      | .ok none => .ok (some (parse_html title url event_id))

/-! ### Calendar generator (src/calendar_gen.py) -/

/-- Python truthiness of an optional string field (`None` and `''` falsy). -/
def optStrTruthy : Option String → Bool
  | none => false
  | some s => ¬ s.isEmpty

/-- Python truthiness of an optional integer field (`None` and `0` falsy). -/
def optIntTruthy : Option Int → Bool
  | none => false
  | some n => n ≠ 0

/-- A VEVENT as assembled by `create_ical_event` (src/calendar_gen.py:53-113). -/
structure ICalEvent where
  uid : String
  dtstamp : Int
  dtstart : Int
  dtend : Int
  summary : String
  location : Option String
  description : String
  url : String
  categories : Option (List String)
deriving Repr, DecidableEq

/-- The `location` property: the truthy parts of location/city/country joined
with `', '`, omitted when all are falsy (src/calendar_gen.py:83-92). -/
def icalLocation (e : Event) : Option String :=
  let parts := [e.location, e.city, e.country].filterMap
    (fun p => if optStrTruthy p then p else none)
  if parts.isEmpty then none else some (String.intercalate ", " parts)

/-- The `description` lines (src/calendar_gen.py:95-104). -/
def icalDescription (e : Event) : String :=
  let lines :=
    (if optStrTruthy e.sport then ["Sport: " ++ e.sport.getD ""] else []) ++
    (if optStrTruthy e.organizer then
      ["Organizer: " ++ e.organizer.getD ""] else []) ++
    (if optIntTruthy e.participants then
      ["Participants: " ++ toString (e.participants.getD 0)] else []) ++
    ["Details: " ++ e.url]
  String.intercalate "\n" lines

/-- `create_ical_event(event)` (src/calendar_gen.py:53-113): `none` when the
event has no `start_date`; otherwise a VEVENT whose `dtend` defaults to
`start_date + 8` hours.  `now` is `datetime.now()` used for `dtstamp`. -/
def create_ical_event (now : Int) (e : Event) : Option ICalEvent :=
  match e.start_date with
  | none => none
  | some s =>
    some { uid := e.id ++ "@smoothcomp.com"
           dtstamp := now
           dtstart := s
           dtend :=
             match e.end_date with
             | some en => en
             | none => s + 8 * 3600
           summary := e.name
           location := icalLocation e
           description := icalDescription e
           url := e.url
           categories :=
             if optStrTruthy e.sport then some [e.sport.getD ""] else none }

/-- The calendar assembled by `generate_ical` (src/calendar_gen.py:15-50):
metadata plus the VEVENT components. -/
structure ICalendar where
  prodid : String
  version : String
  calname : String
  ttl_minutes : Int
  components : List ICalEvent
deriving Repr, DecidableEq

/-- `generate_ical(events, calendar_name, ttl_minutes)`: add a component for
each event for which `create_ical_event` returns one. -/
def generate_ical (now : Int) (events : List Event)
    (calendar_name : String) (ttl_minutes : Int) : ICalendar :=
  { prodid := "-//Smoothcomp Calendar//smoothcomp.com//"
    version := "2.0"
    calname := calendar_name
    ttl_minutes := ttl_minutes
    components := events.filterMap (create_ical_event now) }

/-! ### Single-flight refresh guard (src/server.py:28-79)

Cooperative (asyncio) interleaving of refresh triggers, as a transition
system.  A task created for `refresh_cache` starts at its guard section
(`async with _scrape_lock: if _scraping: return; _scraping = True`, which
holds the lock and contains no await point between the check and the set, so
it is one atomic step); it is in `body` while the scrape/cleanup body runs,
and `done` after the `finally: _scraping = False`.  `spawn` is any trigger
(`maybe_refresh_cache` or a direct `asyncio.create_task(refresh_cache())`)
creating a new task. -/

inductive TaskPc where
  | guard
  | body
  | done
deriving Repr, DecidableEq

/-- Shared server state: the `_scraping` flag and every task's position. -/
structure Sys where
  scraping : Bool
  tasks : List TaskPc
deriving Repr, DecidableEq

/-- Number of tasks currently executing a refresh cycle's body. -/
def bodyCount (ts : List TaskPc) : Nat := ts.count TaskPc.body

/-- Server start: `_scraping = False`, no refresh tasks. -/
def initSys : Sys := { scraping := false, tasks := [] }

/-- One scheduler step of the event loop. -/
inductive SysStep : Sys → Sys → Prop where
  | spawn (s : Sys) :
      SysStep s { scraping := s.scraping, tasks := TaskPc.guard :: s.tasks }
  | guardSkip (s : Sys) (i : Nat) (hg : s.tasks.get? i = some TaskPc.guard)
      (hs : s.scraping = true) :
      SysStep s { scraping := s.scraping, tasks := s.tasks.set i TaskPc.done }
  | guardEnter (s : Sys) (i : Nat) (hg : s.tasks.get? i = some TaskPc.guard)
      (hs : s.scraping = false) :
      SysStep s { scraping := true, tasks := s.tasks.set i TaskPc.body }
  | finish (s : Sys) (i : Nat) (hb : s.tasks.get? i = some TaskPc.body) :
      SysStep s { scraping := false, tasks := s.tasks.set i TaskPc.done }

/-- States reachable from server start. -/
def SysReachable (s : Sys) : Prop :=
  Relation.ReflTransGen SysStep initSys s

/-! ### Helper lemmas -/

@[simp]
lemma rowOfEvent_id (e : Event) (rt : Int) : (rowOfEvent e rt).id = e.id := rfl

@[simp]
lemma rowOfEvent_updated_at (e : Event) (rt : Int) :
    (rowOfEvent e rt).updated_at = rt := rfl

@[simp]
lemma rowOfEvent_start_date (e : Event) (rt : Int) :
    (rowOfEvent e rt).start_date = e.start_date := rfl

lemma map_self_of_fixed (l : List Row) (f : Row → Row)
    (h : ∀ r ∈ l, f r = r) : l.map f = l := by
  induction l with
  | nil => rfl
  | cons a tl ih =>
    simp only [List.map_cons, h a (List.mem_cons_self a tl)]
    rw [ih (fun r hr => h r (List.mem_cons_of_mem a hr))]

lemma mem_upsertRow_self (store : Store) (row : Row) :
    row ∈ upsertRow store row := by
  unfold upsertRow
  cases hany : store.any (fun r => r.id = row.id)
  · rw [if_neg (by simp)]
    simp
  · rw [if_pos rfl]
    rcases List.any_eq_true.mp hany with ⟨r, hr, hid⟩
    exact List.mem_map.mpr ⟨r, hr, by simp [of_decide_eq_true hid]⟩

lemma mem_upsertRow_other (store : Store) (row r : Row)
    (hr : r ∈ store) (hid : r.id ≠ row.id) : r ∈ upsertRow store row := by
  unfold upsertRow
  cases hany : store.any (fun ru => ru.id = row.id)
  · rw [if_neg (by simp)]
    exact List.mem_append_left _ hr
  · rw [if_pos rfl]
    exact List.mem_map.mpr ⟨r, hr, by simp [hid]⟩

lemma mem_upsertRow_cases (store : Store) (row r : Row)
    (h : r ∈ upsertRow store row) :
    r = row ∨ (r ∈ store ∧ r.id ≠ row.id) := by
  unfold upsertRow at h
  cases hany : store.any (fun ru => ru.id = row.id)
  · rw [hany, if_neg (by simp)] at h
    rcases List.mem_append.mp h with h | h
    · right
      refine ⟨h, fun hid => ?_⟩
      have : store.any (fun ru => ru.id = row.id) = true :=
        List.any_eq_true.mpr ⟨r, h, decide_eq_true hid⟩
      rw [hany] at this
      exact Bool.false_ne_true this
    · left
      exact List.mem_singleton.mp h
  · rw [hany, if_pos rfl] at h
    rcases List.mem_map.mp h with ⟨r0, hr0, heq⟩
    by_cases hid : r0.id = row.id
    · left
      simp only [hid, if_pos] at heq
      exact heq.symm
    · right
      simp only [hid, if_neg, if_false] at heq
      exact heq ▸ ⟨hr0, hid⟩

lemma upsertRow_id_mem (store : Store) (row : Row) (i : String)
    (h : ∃ r ∈ store, r.id = i) : ∃ r ∈ upsertRow store row, r.id = i := by
  rcases h with ⟨r, hr, hid⟩
  by_cases hcase : r.id = row.id
  · exact ⟨row, mem_upsertRow_self store row, hcase ▸ hid⟩
  · exact ⟨r, mem_upsertRow_other store row r hr hcase, hid⟩

lemma upsertRow_idem (store : Store) (row : Row) :
    upsertRow (upsertRow store row) row = upsertRow store row := by
  have hmem : row ∈ upsertRow store row := mem_upsertRow_self store row
  have hany : (upsertRow store row).any (fun r => r.id = row.id) = true :=
    List.any_eq_true.mpr ⟨row, hmem, by simp⟩
  show (if (upsertRow store row).any (fun r => r.id = row.id) then _ else _) = _
  rw [hany, if_pos rfl]
  apply map_self_of_fixed
  intro r hr
  rcases mem_upsertRow_cases store row r hr with h | h
  · simp [h]
  · simp [h.2]

lemma upsert_event_mem_other (store : Store) (e : Event) (rt now : Int)
    (r : Row) (hr : r ∈ store) (hid : r.id ≠ e.id) :
    r ∈ upsert_event store e rt now := by
  unfold upsert_event
  rcases hsd : e.start_date with _ | s
  · exact mem_upsertRow_other store _ r hr hid
  · by_cases hlt : s < now
    · simpa [hlt] using hr
    · simp only [hlt, if_false]
      exact mem_upsertRow_other store _ r hr hid

lemma upsert_event_id_mem (store : Store) (e : Event) (rt now : Int)
    (i : String) (h : ∃ r ∈ store, r.id = i) :
    ∃ r ∈ upsert_event store e rt now, r.id = i := by
  unfold upsert_event
  rcases e.start_date with _ | s
  · exact upsertRow_id_mem store _ i h
  · by_cases hlt : s < now
    · simpa [hlt] using h
    · simp only [hlt, if_false]
      exact upsertRow_id_mem store _ i h

lemma upsert_event_mem_keep (store : Store) (e : Event) (rt now : Int)
    (r : Row) (hr : r ∈ store)
    (hcond : e.id ≠ r.id ∨ ∃ s, e.start_date = some s ∧ s < now) :
    r ∈ upsert_event store e rt now := by
  rcases hcond with hid | ⟨s, hs, hlt⟩
  · exact upsert_event_mem_other store e rt now r hr (fun h => hid h.symm)
  · unfold upsert_event
    rw [hs]
    simpa [hlt] using hr

lemma upsertAll_mem_other (batch : List (Event × Int)) (store : Store)
    (rt : Int) (r : Row) (hr : r ∈ store)
    (hid : ∀ p ∈ batch, p.1.id ≠ r.id ∨
      ∃ s, p.1.start_date = some s ∧ s < p.2) :
    r ∈ upsertAll store batch rt := by
  induction batch generalizing store with
  | nil => exact hr
  | cons p rest ih =>
    refine ih _ ?_ (fun q hq => hid q (List.mem_cons_of_mem p hq))
    exact upsert_event_mem_keep store p.1 rt p.2 r hr
      (hid p (List.mem_cons_self p rest))

lemma upsertAll_id_mem (batch : List (Event × Int)) (store : Store)
    (rt : Int) (i : String) (h : ∃ r ∈ store, r.id = i) :
    ∃ r ∈ upsertAll store batch rt, r.id = i := by
  induction batch generalizing store with
  | nil => exact h
  | cons p rest ih => exact ih _ (upsert_event_id_mem store p.1 rt p.2 i h)

lemma upsert_event_written (store : Store) (e : Event) (rt now : Int)
    (h : ∀ s, e.start_date = some s → ¬ s < now) :
    rowOfEvent e rt ∈ upsert_event store e rt now := by
  unfold upsert_event
  rcases hsd : e.start_date with _ | s
  · exact mem_upsertRow_self store _
  · simp only [h s hsd, if_false]
    exact mem_upsertRow_self store _

lemma upsertAll_written_mem (batch : List (Event × Int)) (store : Store)
    (rt : Int) (p : Event × Int) (hp : p ∈ batch)
    (h : ∀ s, p.1.start_date = some s → ¬ s < p.2) :
    ∃ r ∈ upsertAll store batch rt, r.id = p.1.id := by
  induction batch generalizing store with
  | nil => cases hp
  | cons q rest ih =>
    rcases List.mem_cons.mp hp with hq | hq
    · subst hq
      exact upsertAll_id_mem rest _ rt p.1.id
        ⟨rowOfEvent p.1 rt, upsert_event_written store p.1 rt p.2 h, rfl⟩
    · exact ih (upsert_event store q.1 rt q.2) hq

lemma bodyCount_set (ts : List TaskPc) (i : Nat) (a v : TaskPc)
    (h : ts.get? i = some a) :
    bodyCount (ts.set i v) + (if a = TaskPc.body then 1 else 0) =
      bodyCount ts + (if v = TaskPc.body then 1 else 0) := by
  induction ts generalizing i with
  | nil => cases h
  | cons x tl ih =>
    cases i with
    | zero =>
      obtain rfl : x = a := by
        simpa using h
      simp only [List.set_cons_zero, bodyCount, List.count_cons, beq_iff_eq]
      omega
    | succ j =>
      have hj := ih j (by simpa using h)
      simp only [List.set_cons_succ, bodyCount, List.count_cons, beq_iff_eq]
        at hj ⊢
      omega

/-- The inductive invariant of the single-flight guard: at most one task is
in a cycle body, and none is while `_scraping` is unset. -/
def sysInv (s : Sys) : Prop :=
  bodyCount s.tasks ≤ 1 ∧ (s.scraping = false → bodyCount s.tasks = 0)

lemma sysInv_init : sysInv initSys := by
  constructor <;> simp [initSys, bodyCount]

lemma sysInv_step {s s' : Sys} (hstep : SysStep s s') (hinv : sysInv s) :
    sysInv s' := by
  obtain ⟨h1, h2⟩ := hinv
  cases hstep with
  | spawn =>
    constructor
    · simpa [bodyCount, List.count_cons] using h1
    · intro hs
      simpa [bodyCount, List.count_cons] using h2 hs
  | guardSkip i hg hs =>
    have hset := bodyCount_set s.tasks i _ TaskPc.done hg
    simp at hset
    constructor
    · show bodyCount (s.tasks.set i TaskPc.done) ≤ 1
      omega
    · intro h
      show bodyCount (s.tasks.set i TaskPc.done) = 0
      have h0 := h2 h
      omega
  | guardEnter i hg hs =>
    have hset := bodyCount_set s.tasks i _ TaskPc.body hg
    simp at hset
    have h0 := h2 hs
    constructor
    · show bodyCount (s.tasks.set i TaskPc.body) ≤ 1
      omega
    · intro h
      cases h
  | finish i hb =>
    have hset := bodyCount_set s.tasks i _ TaskPc.done hb
    simp at hset
    constructor
    · show bodyCount (s.tasks.set i TaskPc.done) ≤ 1
      omega
    · intro _
      show bodyCount (s.tasks.set i TaskPc.done) = 0
      omega

lemma sysInv_reachable (s : Sys) (h : SysReachable s) : sysInv s := by
  induction h with
  | refl => exact sysInv_init
  | tail _ hstep ih => exact sysInv_step hstep ih

/-! ### Claim theorems -/

/-- C1.  After a refresh cycle that completes successfully (the scrape loop
finishes and `cleanup_stale_events(refresh_time)` plus
`mark_refresh_complete()` run), no stored event has `updated_at` strictly
before the cycle's `refresh_time`, and no stored event has a `start_date` in
the past (before the clock at the past-event sweep). -/
theorem refresh_success_retires (st : CacheState) (batch : List (Event × Int))
    (refresh_time cleanup_now complete_now : Int) (r : Row)
    (hr : r ∈ (refreshAttempt st batch none refresh_time cleanup_now
      complete_now).store) :
    ¬ r.updated_at < refresh_time ∧
      ∀ s, r.start_date = some s → ¬ s < cleanup_now := by
  simp only [refreshAttempt, cleanup_stale_events, List.mem_filter,
    decide_eq_true_eq] at hr
  refine ⟨hr.1.2, fun s hs hlt => ?_⟩
  have := hr.2
  rw [pastSweepMatches, hs] at this
  simp [hlt] at this

/-- The concrete event used in the witnesses for C1. -/
def eventC1 : Event := { id := "1", name := "A", url := "u", start_date := some 100 }

/-- Witness for C1: a concrete successful cycle (one upserted future event)
and its surviving row. -/
theorem refresh_success_retires_witness :
    ¬ (rowOfEvent eventC1 10).updated_at < 10 ∧
      ∀ s, (rowOfEvent eventC1 10).start_date = some s → ¬ s < 50 :=
  refresh_success_retires { store := [], last_update := none }
    [(eventC1, 0)] 10 50 60 _ (by decide)

/-- C2.  A refresh cycle that fails after `k` upserts performs no retirement
and no completion: the `last_update` marker is unchanged, every row present
before the cycle that was not overwritten (each upsert of the partial cycle
either targeted a different id or was skipped as past) is still present, and
every event actually written during the partial cycle (its upsert was not
skipped as past) is still present under its id. -/
theorem refresh_failure_preserves (st : CacheState)
    (batch : List (Event × Int)) (k : Nat)
    (refresh_time cleanup_now complete_now : Int) :
    (refreshAttempt st batch (some k) refresh_time cleanup_now
        complete_now).last_update = st.last_update ∧
    (∀ r ∈ st.store, (∀ p ∈ batch.take k, p.1.id ≠ r.id ∨
        ∃ s, p.1.start_date = some s ∧ s < p.2) →
      r ∈ (refreshAttempt st batch (some k) refresh_time cleanup_now
        complete_now).store) ∧
    (∀ p ∈ batch.take k, (∀ s, p.1.start_date = some s → ¬ s < p.2) →
      ∃ r ∈ (refreshAttempt st batch (some k) refresh_time cleanup_now
        complete_now).store, r.id = p.1.id) := by
  refine ⟨rfl, ?_, ?_⟩
  · intro r hr hid
    exact upsertAll_mem_other (batch.take k) st.store refresh_time r hr hid
  · intro p hp hwritten
    exact upsertAll_written_mem (batch.take k) st.store refresh_time p hp
      hwritten

/-- The pre-existing row, the failing cycle's state and its scraped batch
used in the witness for C2. -/
def rowC2 : Row := rowOfEvent { id := "old", name := "O", url := "u" } 1

/-- Pre-cycle cache state for the C2 witness. -/
def stateC2 : CacheState := { store := [rowC2], last_update := some 99 }

/-- Scraped batch for the C2 witness: one new future event. -/
def batchC2 : List (Event × Int) :=
  [({ id := "new", name := "N", url := "v", start_date := some 100 }, 0)]

/-- Witness for C2: a cycle that fails after one upsert keeps the marker,
the pre-existing row and the newly written row. -/
theorem refresh_failure_preserves_witness :
    rowC2 ∈ (refreshAttempt stateC2 batchC2 (some 1) 10 50 60).store ∧
    (refreshAttempt stateC2 batchC2 (some 1) 10 50 60).last_update =
      some 99 ∧
    ∃ r ∈ (refreshAttempt stateC2 batchC2 (some 1) 10 50 60).store,
      r.id = "new" := by
  have h := refresh_failure_preserves stateC2 batchC2 1 10 50 60
  refine ⟨h.2.1 rowC2 (by decide) ?_, h.1, ?_⟩
  · intro p hp
    obtain rfl := List.mem_singleton.mp hp
    left
    decide
  have hw := h.2.2 ({ id := "new", name := "N", url := "v", start_date := some 100 }, 0) (by decide) (by decide)
  exact hw

/-- C3.  Single-flight: in every reachable interleaving of refresh triggers,
at most one task is inside a refresh cycle's body, and while one is (the
`_scraping` flag is set) no scheduler step starts another body — a further
trigger can only pass through the guard to `done` (silent no-op). -/
theorem single_flight (s : Sys) (h : SysReachable s) :
    bodyCount s.tasks ≤ 1 ∧
      (s.scraping = true → ∀ s', SysStep s s' →
        bodyCount s'.tasks ≤ bodyCount s.tasks) := by
  refine ⟨(sysInv_reachable s h).1, fun hflag s' hstep => ?_⟩
  cases hstep with
  | spawn =>
    show bodyCount (TaskPc.guard :: s.tasks) ≤ bodyCount s.tasks
    simp [bodyCount, List.count_cons]
  | guardSkip i hg hs =>
    have hset := bodyCount_set s.tasks i _ TaskPc.done hg
    simp at hset
    show bodyCount (s.tasks.set i TaskPc.done) ≤ bodyCount s.tasks
    omega
  | guardEnter i hg hs =>
    rw [hflag] at hs
    cases hs
  | finish i hb =>
    have hset := bodyCount_set s.tasks i _ TaskPc.done hb
    simp at hset
    show bodyCount (s.tasks.set i TaskPc.done) ≤ bodyCount s.tasks
    omega

/-- Witness for C3: the state reached by spawning one refresh task and
letting it enter its body. -/
theorem single_flight_witness :
    bodyCount ({ scraping := true, tasks := [TaskPc.body] } : Sys).tasks ≤
      1 := by
  have h1 : SysStep initSys { scraping := false, tasks := [TaskPc.guard] } :=
    SysStep.spawn initSys
  have h2 : SysStep { scraping := false, tasks := [TaskPc.guard] }
      { scraping := true, tasks := [TaskPc.body] } :=
    SysStep.guardEnter { scraping := false, tasks := [TaskPc.guard] } 0 rfl rfl
  have hreach : SysReachable { scraping := true, tasks := [TaskPc.body] } :=
    Relation.ReflTransGen.tail (Relation.ReflTransGen.tail
      Relation.ReflTransGen.refl h1) h2
  exact (single_flight _ hreach).1

/-- C4.  `scrape_events_iter` orders its URL list new-then-update: the
processed sequence is exactly the URLs not classified as updates (id absent
from `existing_ids` or unparsable), in listing order, followed by the update
URLs in listing order; in particular with existing id `123` and listing
`[event/123, event/456]`, the `456` page is processed first. -/
theorem scrape_order (existing_ids urls : List String) :
    orderedUrls existing_ids urls =
      urls.filter (fun u => ! isUpdateUrl existing_ids u) ++
        urls.filter (fun u => isUpdateUrl existing_ids u) ∧
    orderedUrls ["123"]
      ["https://smoothcomp.com/en/event/123",
        "https://smoothcomp.com/en/event/456"] =
      ["https://smoothcomp.com/en/event/456",
        "https://smoothcomp.com/en/event/123"] := by
  constructor
  · have hpart : ∀ l : List String,
        partitionUrls existing_ids l =
          (l.filter (fun u => ! isUpdateUrl existing_ids u),
            l.filter (fun u => isUpdateUrl existing_ids u)) := by
      intro l
      induction l with
      | nil => rfl
      | cons u rest ih =>
        simp only [partitionUrls, ih, List.filter_cons]
        cases hu : isUpdateUrl existing_ids u <;> simp [hu]
    unfold orderedUrls
    cases hex : existing_ids.isEmpty
    · simp only [Bool.false_eq_true, if_false, hpart]
    · have hnone : ∀ u, isUpdateUrl existing_ids u = false := by
        intro u
        unfold isUpdateUrl
        rcases extract_event_id u with _ | eid
        · rfl
        · rw [List.isEmpty_iff.mp hex]
          rfl
      simp [hnone]
  · rfl

/-- C5.  `upsert_event` skips silently (store unchanged) when the event's
`start_date` is before the clock at the moment of upsert; otherwise it
inserts-or-fully-replaces the row keyed by the event id: the written row
(all columns from the event, `updated_at = refresh_time`) is present, rows
with other ids are untouched, and nothing else is present. -/
theorem upsert_event_spec (store : Store) (e : Event)
    (refresh_time now : Int) :
    (∀ s, e.start_date = some s → s < now →
      upsert_event store e refresh_time now = store) ∧
    ((∀ s, e.start_date = some s → ¬ s < now) →
      rowOfEvent e refresh_time ∈ upsert_event store e refresh_time now ∧
      (∀ r ∈ store, r.id ≠ e.id →
        r ∈ upsert_event store e refresh_time now) ∧
      (∀ r ∈ upsert_event store e refresh_time now,
        r = rowOfEvent e refresh_time ∨ (r ∈ store ∧ r.id ≠ e.id))) := by
  constructor
  · intro s hs hlt
    unfold upsert_event
    rw [hs]
    simp [hlt]
  · intro hfuture
    refine ⟨upsert_event_written store e refresh_time now hfuture,
      fun r hr hid =>
        upsert_event_mem_other store e refresh_time now r hr hid, ?_⟩
    intro r hr
    unfold upsert_event at hr
    rcases hsd : e.start_date with _ | s
    · rw [hsd] at hr
      rcases mem_upsertRow_cases store _ r hr with h | h
      · exact Or.inl h
      · exact Or.inr ⟨h.1, by simpa using h.2⟩
    · rw [hsd] at hr
      have hr' : r ∈ upsertRow store (rowOfEvent e refresh_time) := by
        simpa [hfuture s hsd] using hr
      rcases mem_upsertRow_cases store _ r hr' with h | h
      · exact Or.inl h
      · exact Or.inr ⟨h.1, by simpa using h.2⟩

/-- The concrete future event used in the witness for C5. -/
def eventC5 : Event := { id := "5", name := "E", url := "u", start_date := some 100 }

/-- Witness for C5: upserting a future event into the empty store writes its
row. -/
theorem upsert_event_spec_witness :
    rowOfEvent eventC5 10 ∈ upsert_event [] eventC5 10 50 := by
  have h := (upsert_event_spec [] eventC5 10 50).2 (by
    intro s hs
    simp only [eventC5] at hs
    injection hs with h0
    omega)
  exact h.1

/-- C7.  `is_stale` is true iff there is no completion marker or the marker
is older than the TTL; concretely it is true with no marker, false right
after `mark_refresh_complete` with the default 1-hour TTL and no elapsed
time, and true once more than the TTL has elapsed. -/
theorem is_stale_spec (last_update : Option Int) (now ttl : Int) :
    (is_stale last_update now ttl = true ↔
      last_update = none ∨ ∃ t, last_update = some t ∧ now - t > ttl) ∧
    is_stale none now ttl = true ∧
    is_stale (mark_refresh_complete last_update now) now (ttlOfHours 1) =
      false ∧
    (∀ t e : Int, e > ttl → is_stale (some t) (t + e) ttl = true) := by
  refine ⟨?_, rfl, ?_, ?_⟩
  · rcases last_update with _ | t
    · simp [is_stale]
    · simp only [is_stale, decide_eq_true_eq]
      constructor
      · intro h
        exact Or.inr ⟨t, rfl, h⟩
      · rintro (h | ⟨t', ht', h⟩)
        · cases h
        · injection ht' with h0
          omega
  · simp [is_stale, mark_refresh_complete, ttlOfHours]
  · intro t e he
    simp only [is_stale, decide_eq_true_eq]
    omega

/-- Witness for C7 at concrete timestamps: fresh right after completion,
stale again 3601 seconds later. -/
theorem is_stale_spec_witness :
    is_stale (mark_refresh_complete none 1000) 1000 (ttlOfHours 1) = false ∧
    is_stale (some 1000) (1000 + 3601) 3600 = true :=
  ⟨(is_stale_spec none 1000 3600).2.2.1,
    (is_stale_spec none 0 3600).2.2.2 1000 3601 (by omega)⟩

/-- C8.  `upsert_event` is idempotent for a fixed `refresh_time`: upserting
the same event twice (the clock not moving backwards between the calls)
leaves exactly the state of upserting it once. -/
theorem upsert_event_idem (store : Store) (e : Event)
    (refresh_time now1 now2 : Int) (h : now1 ≤ now2) :
    upsert_event (upsert_event store e refresh_time now1) e refresh_time
      now2 = upsert_event store e refresh_time now1 := by
  unfold upsert_event
  rcases hsd : e.start_date with _ | s
  · exact upsertRow_idem store _
  · by_cases h1 : s < now1
    · simp [h1, show s < now2 by omega]
    · by_cases h2 : s < now2
      · simp [h1, h2]
      · simp [h1, h2, upsertRow_idem]

lemma components_length (now : Int) (events : List Event) :
    (events.filterMap (create_ical_event now)).length =
      (events.filter (fun e => e.start_date.isSome)).length := by
  induction events with
  | nil => rfl
  | cons e rest ih =>
    rcases hsd : e.start_date with _ | s <;>
      simp [List.filterMap_cons, List.filter_cons, create_ical_event, hsd, ih]

/-- C9.  `generate_ical` renders exactly the events that have a
`start_date` (events without one produce no component), and an event with a
`start_date` and no `end_date` is rendered with a synthesized end of
start plus 8 hours. -/
theorem generate_ical_spec (now ttl : Int) (calendar_name : String)
    (events : List Event) :
    (generate_ical now events calendar_name ttl).components.length =
      (events.filter (fun e => e.start_date.isSome)).length ∧
    (∀ e ∈ events, ∀ s, e.start_date = some s → e.end_date = none →
      ∃ c ∈ (generate_ical now events calendar_name ttl).components,
        c.uid = e.id ++ "@smoothcomp.com" ∧ c.dtstart = s ∧
          c.dtend = s + 8 * 3600) := by
  constructor
  · exact components_length now events
  · intro e he s hs hend
    have hc : create_ical_event now e =
        some { uid := e.id ++ "@smoothcomp.com", dtstamp := now,
               dtstart := s, dtend := s + 8 * 3600, summary := e.name,
               location := icalLocation e, description := icalDescription e,
               url := e.url,
               categories := if optStrTruthy e.sport then
                 some [e.sport.getD ""] else none } := by
      simp only [create_ical_event, hs, hend]
    have hmem : ({ uid := e.id ++ "@smoothcomp.com", dtstamp := now, dtstart := s, dtend := s + 8 * 3600, summary := e.name, location := icalLocation e, description := icalDescription e, url := e.url, categories := if optStrTruthy e.sport then some [e.sport.getD ""] else none } : ICalEvent) ∈ (generate_ical now events calendar_name ttl).components := by
      simp only [generate_ical]
      exact List.mem_filterMap.mpr ⟨e, he, hc⟩
    exact ⟨_, hmem, rfl, rfl, rfl⟩

/-- The concrete event used in the witness for C9. -/
def eventC9 : Event := { id := "9", name := "E", url := "u", start_date := some 100 }

/-- Witness for C9: the single rendered component of a one-event calendar
carries the synthesized 8-hour end. -/
theorem generate_ical_spec_witness :
    ∃ c ∈ (generate_ical 5 [eventC9] "Smoothcomp Events" 360).components,
      c.uid = eventC9.id ++ "@smoothcomp.com" ∧ c.dtstart = 100 ∧
        c.dtend = 100 + 8 * 3600 :=
  (generate_ical_spec 5 360 "Smoothcomp Events" [eventC9]).2 eventC9
    (List.mem_singleton.mpr rfl) 100 rfl rfl

/-- C10.  An event without a `start_date` is always written by
`upsert_event` (the past-event skip never applies), is never deleted by the
past-event sweep of `cleanup_stale_events` (SQL `NULL < NOW()` does not
hold) — it survives cleanup exactly when it was re-observed this cycle —
and after being upserted in a cycle it survives that cycle's cleanup. -/
theorem startless_event_lifecycle (store : Store) (e : Event)
    (refresh_time now rt2 now2 : Int) (h : e.start_date = none) :
    rowOfEvent e refresh_time ∈ upsert_event store e refresh_time now ∧
    (∀ r : Row, r ∈ store → r.start_date = none →
      (r ∈ cleanup_stale_events store rt2 now2 ↔ ¬ r.updated_at < rt2)) ∧
    rowOfEvent e refresh_time ∈
      cleanup_stale_events (upsert_event store e refresh_time now)
        refresh_time now2 := by
  have hw : rowOfEvent e refresh_time ∈
      upsert_event store e refresh_time now :=
    upsert_event_written store e refresh_time now
      (fun s hs => by rw [h] at hs; cases hs)
  refine ⟨hw, ?_, ?_⟩
  · intro r hr hnone
    simp [cleanup_stale_events, List.mem_filter, pastSweepMatches, hnone, hr]
  · simp only [cleanup_stale_events, List.mem_filter, decide_eq_true_eq]
    refine ⟨⟨hw, by simp⟩, ?_⟩
    simp [pastSweepMatches, h]

/-- The concrete start-date-less event used in the witness for C10. -/
def eventC10 : Event := { id := "10", name := "E", url := "u" }

/-- Witness for C10: the startless event is written under any clock and its
row survives its cycle's cleanup. -/
theorem startless_event_lifecycle_witness :
    rowOfEvent eventC10 7 ∈ upsert_event [] eventC10 7 1000000 ∧
    rowOfEvent eventC10 7 ∈
      cleanup_stale_events (upsert_event [] eventC10 7 1000000) 7 1000000 := by
  have h := startless_event_lifecycle [] eventC10 7 1000000 7 1000000 rfl
  exact ⟨h.1, h.2.2⟩

/-- C6.  Evaluation of `get_event_details` at the failing input for the
claim that it never raises past its boundary: a 200 page whose JSON-LD is
`{"@type": "SportsEvent", "location": "Stockholm"}` (a string-valued
`location`).  `_event_from_jsonld` calls `.get` on that string, raising
`AttributeError`, which `_parse_jsonld` does not catch (it only catches
`JSONDecodeError`/`TypeError`), so the exception escapes instead of the
documented `None`. -/
theorem get_event_details_raises :
    get_event_details (fun _ => none)
      (FetchResult.page 200
        [some (Json.obj [("@type", Json.str "SportsEvent"),
          ("location", Json.str "Stockholm")])]
        none)
      "https://smoothcomp.com/en/event/123" = Except.error () := rfl

/-- The concrete event used in the witness for C8. -/
def eventC8 : Event := { id := "8", name := "E", url := "u", start_date := some 100 }

/-- Witness for C8 on a concrete event and clocks. -/
theorem upsert_event_idem_witness :
    upsert_event (upsert_event [] eventC8 10 50) eventC8 10 60 =
      upsert_event [] eventC8 10 50 :=
  upsert_event_idem [] eventC8 10 50 60 (by omega)

end Smoothcomp
